import Mathlib

/-!
Shallow embedding of the interactive "wheels of fortune" sketch
(`sketch.js`): `Wheel` elements with a fade-in level, `DandelionParticle`
fragments, the dispersal controller (`mousePressed`), the restoration
controller (`keyPressed`) and the per-frame driver (`draw`).

Numbers are modelled by an arbitrary linear ordered field `α` (exact
arithmetic on JS numbers); instantiating `α := ℚ` gives computable
definitions for concrete evaluation, while `α := ℝ` lets us reason about
the host's genuine trigonometric primitives.  The host primitives
(`cos`, `sin`, `sqrt`, `atan2`, the constant `PI`) and the random stream
(`random(a, b)`) are abstracted as an explicit environment of functions.
-/

namespace WheelsArt

/-- One batch of unit-interval random draws consumed when one particle is
constructed.  `random(a, b)` in the host is modelled as `a + u * (b - a)`
with a fresh unit draw `u ∈ [0, 1)`. -/
structure Draws (α : Type) where
  u1 : α
  u2 : α
  u3 : α
  u4 : α
  u5 : α
deriving DecidableEq

/-- Host environment: trigonometric and square-root primitives, `atan2`,
the constant `PI`, and the random stream (indexed by a spawn counter). -/
structure Env (α : Type) where
  cosF : α → α
  sinF : α → α
  sqrtF : α → α
  atan2F : α → α → α
  piV : α
  rnd : ℕ → Draws α

variable {α : Type} [LinearOrderedField α]

/-- p5 `lerp(a, b, t) = a + (b - a) * t`. -/
def lerpv (a b t : α) : α := a + (b - a) * t

/-- p5 `random(a, b) = a + u * (b - a)` for a unit draw `u`. -/
def randIn (u a b : α) : α := a + u * (b - a)

/-- p5 `dist(x1, y1, x2, y2) = sqrt((x2-x1)^2 + (y2-y1)^2)`. -/
def distv (env : Env α) (x1 y1 x2 y2 : α) : α :=
  env.sqrtF ((x2 - x1) ^ 2 + (y2 - y1) ^ 2)

/-- p5 `map(v, a, b, c, d) = c + (d - c) * ((v - a) / (b - a))`. -/
def mapv (v a b c d : α) : α := c + (d - c) * ((v - a) / (b - a))

/-- A `Wheel` element (`class Wheel`): geometry, palette, the dispersal
flag `isBlownAway`, and the inner-pattern fade state. -/
structure Wheel (α : Type) where
  x : α
  y : α
  radius : α
  colors : List String
  stemAngle : α
  isBlownAway : Bool
  innerAlpha : α
  targetInnerAlpha : α
  fadeSpeed : α
deriving DecidableEq

/-- `new Wheel(x, y, radius, palette)`: the constructor sets
`isBlownAway = false`, `innerAlpha = 0`, `targetInnerAlpha = 255`,
`fadeSpeed = 5`. -/
def Wheel.create (x y radius : α) (palette : List String) (stemAngle : α) : Wheel α :=
  { x := x, y := y, radius := radius, colors := palette, stemAngle := stemAngle,
    isBlownAway := false, innerAlpha := 0, targetInnerAlpha := 255, fadeSpeed := 5 }

/-- `Wheel.updateAlpha()`: pin the fade at `0` while blown away, otherwise
raise it by `fadeSpeed` toward `targetInnerAlpha` without overshooting. -/
def Wheel.updateAlpha (w : Wheel α) : Wheel α :=
  if w.isBlownAway then { w with innerAlpha := 0 }
  else if w.innerAlpha < w.targetInnerAlpha then
    { w with innerAlpha := min (w.innerAlpha + w.fadeSpeed) w.targetInnerAlpha }
  else w

/-- `Wheel.contains(px, py)`: Euclidean distance from the point to the
centre is strictly less than the radius. -/
def Wheel.contains (w : Wheel α) (env : Env α) (px py : α) : Bool :=
  decide (distv env px py w.x w.y < w.radius)

/-- A dandelion particle (`class DandelionParticle`). -/
structure DandelionParticle (α : Type) where
  x : α
  y : α
  type : String
  color : String
  size : α
  alpha : α
  originalX : α
  originalY : α
  targetX : α
  targetY : α
  velX : α
  velY : α
  rotation : α
  rotationSpeed : α
  windX : α
  windY : α
  isReturning : Bool
  returnSpeed : α
deriving DecidableEq

/-- `new DandelionParticle(x, y, type, color, size, targetX, targetY,
initialAngle = 0)`, consuming the `n`-th batch of random draws: the
initial velocity is `fromAngle(random(PI + PI/4, PI + PI/2))` scaled by
`random(1, 3)`, the rotation speed is `random(-0.05, 0.05)`, and the wind
is `(random(-0.05, -0.2), random(0.05, 0.2))`. -/
def mkParticle (env : Env α) (n : ℕ) (x y : α) (ty col : String)
    (size targetX targetY : α) (initialAngle : α := 0) : DandelionParticle α :=
  let d := env.rnd n
  let theta := randIn d.u1 (env.piV + env.piV / 4) (env.piV + env.piV / 2)
  let speed := randIn d.u2 1 3
  { x := x, y := y, type := ty, color := col, size := size,
    alpha := 255,
    originalX := x, originalY := y,
    targetX := targetX, targetY := targetY,
    velX := env.cosF theta * speed,
    velY := env.sinF theta * speed,
    rotation := initialAngle,
    rotationSpeed := randIn d.u3 (-(5 / 100)) (5 / 100),
    windX := randIn d.u4 (-(5 / 100)) (-(2 / 10)),
    windY := randIn d.u5 (5 / 100) (2 / 10),
    isReturning := false,
    returnSpeed := 5 / 100 }

/-- `DandelionParticle.update()`: return-mode easing when `isReturning`,
otherwise drift under velocity and wind while fading and shrinking. -/
def DandelionParticle.update (p : DandelionParticle α) : DandelionParticle α :=
  if p.isReturning then
    { p with
      x := lerpv p.x p.targetX p.returnSpeed,
      y := lerpv p.y p.targetY p.returnSpeed,
      alpha := lerpv p.alpha 0 (p.returnSpeed * 2),
      size := lerpv p.size (if p.type == "spoke" then p.size / 5 else p.size)
                (p.returnSpeed * 2),
      rotationSpeed := lerpv p.rotationSpeed 0 (5 / 100) }
  else
    { p with
      x := p.x + p.velX,
      y := p.y + p.velY,
      velX := p.velX + p.windX,
      velY := p.velY + p.windY,
      rotation := p.rotation + p.rotationSpeed,
      alpha := p.alpha - 2,
      size := p.size * (99 / 100) }

/-- First removal predicate of the frame driver: fully faded and not
returning (`p.alpha <= 0 && !p.isReturning`). -/
def removeDrift (p : DandelionParticle α) : Bool :=
  decide (p.alpha ≤ 0) && !p.isReturning

/-- Second removal predicate of the frame driver: returning, within
distance `1` of the target, and fully faded. -/
def removeReturn (env : Env α) (p : DandelionParticle α) : Bool :=
  p.isReturning && decide (distv env p.x p.y p.targetX p.targetY < 1)
    && decide (p.alpha ≤ 0)

/-- The whole mutable state of the sketch: the wheel array, the live
particle array, and the undo history.  A history batch stores the stable
indices (into `wheels`) of the wheel references pushed by `mousePressed`. -/
structure SysState (α : Type) where
  wheels : List (Wheel α)
  particles : List (DandelionParticle α)
  history : List (List ℕ)
deriving DecidableEq

/-- One frame of `draw()`: every wheel runs `updateAlpha`, every particle
runs `update`, and particles satisfying either removal predicate are
spliced out (descending-index traversal = map then filter). -/
def tick (env : Env α) (s : SysState α) : SysState α :=
  { wheels := s.wheels.map Wheel.updateAlpha,
    particles := (s.particles.map DandelionParticle.update).filter
      (fun p => !removeDrift p && !removeReturn env p),
    history := s.history }

/-- The reverse scan of `mousePressed`: the first index, counting down
from the top of the array, whose wheel is hit and not blown away. -/
def hitIndex (env : Env α) (mx my : α) (ws : List (Wheel α)) : Option ℕ :=
  (List.range ws.length).reverse.find? fun j =>
    match ws.get? j with
    | some w => w.contains env mx my && !w.isBlownAway
    | none => false

/-- The wheel selected by `mousePressed`, if any. -/
def selectedWheel (env : Env α) (mx my : α) (ws : List (Wheel α)) : Option (Wheel α) :=
  (hitIndex env mx my ws).bind ws.get?

/-- `w => w.colors[0] === clickedWheelBaseColor && !w.isBlownAway`. -/
def sameColorActive (cc : String) (w : Wheel α) : Bool :=
  (w.colors.getD 0 "" == cc) && !w.isBlownAway

/-- Indices of the wheels collected into the pushed history batch
(the references in `wheelsToBlow`, as stable indices). -/
def batchIdxs (cc : String) (ws : List (Wheel α)) : List ℕ :=
  (List.range ws.length).filter fun j =>
    match ws.get? j with
    | some w => sameColorActive cc w
    | none => false

/-- Particles spawned for one blown wheel: one `'spoke'` particle per
spoke (ring fraction `0.8`, spawn angle carried as initial rotation) and
one `'outerDot'` particle per outer dot (ring fraction `0.9`); origin and
return target are the same ring point.  `off` is the spawn counter offset
into the random stream. -/
def spawnFor (env : Env α) (off : ℕ) (w : Wheel α) : List (DandelionParticle α) :=
  ((List.range 24).map fun (j : ℕ) =>
    let angle := mapv (j : α) 0 24 0 (2 * env.piV)
    let startX := w.x + env.cosF angle * (w.radius * (8 / 10))
    let startY := w.y + env.sinF angle * (w.radius * (8 / 10))
    mkParticle env (off + j) startX startY "spoke" (w.colors.getD 3 "")
      (w.radius * (3 / 100) * 5) startX startY angle)
  ++ ((List.range 40).map fun (j : ℕ) =>
    let angle := mapv (j : α) 0 40 0 (2 * env.piV)
    let dx := w.x + env.cosF angle * (w.radius * (9 / 10))
    let dy := w.y + env.sinF angle * (w.radius * (9 / 10))
    mkParticle env (off + 24 + j) dx dy "outerDot" (w.colors.getD 1 "")
      (w.radius * (8 / 100)) dx dy)

/-- Spawn particles for every wheel of the affected set, threading the
spawn counter (64 particles per wheel). -/
def spawnAllAux (env : Env α) (off : ℕ) : List (Wheel α) → List (DandelionParticle α)
  | [] => []
  | w :: rest => spawnFor env off w ++ spawnAllAux env (off + 64) rest

/-- All particles produced by one dispersal event. -/
def spawnAll (env : Env α) (ws : List (Wheel α)) : List (DandelionParticle α) :=
  spawnAllAux env 0 ws

/-- `mousePressed()`: scan for a hit, collect the affected set (same base
color, not blown away), and if it is non-empty push one history batch,
mark every affected wheel blown away with `innerAlpha = 0`, and append
their particles. -/
def mousePressedF (env : Env α) (mx my : α) (s : SysState α) : SysState α :=
  match selectedWheel env mx my s.wheels with
  | none => s
  | some w =>
    let cc := w.colors.getD 0 ""
    let toBlow := s.wheels.filter (sameColorActive cc)
    if 0 < toBlow.length then
      { wheels := s.wheels.map fun v =>
          if sameColorActive cc v then { v with isBlownAway := true, innerAlpha := 0 }
          else v,
        particles := s.particles ++ spawnAll env toBlow,
        history := s.history ++ [batchIdxs cc s.wheels] }
    else s

/-- In-place update of the element at one index of a list (a JS mutation
of an array slot through a reference). -/
def modifyAt : List β → ℕ → (β → β) → List β
  | [], _, _ => []
  | b :: bs, 0, f => f b :: bs
  | b :: bs, n + 1, f => b :: modifyAt bs n f

/-- The particle-matching condition of `keyPressed`: a `'spoke'` particle
whose target is within `10` of the wheel's spoke ring point at the
particle's current rotation, or an `'outerDot'` particle whose target is
within `10` of the outer-dot ring point in the direction
`atan2(targetY - w.y, targetX - w.x)`. -/
def matchCond (env : Env α) (w : Wheel α) (p : DandelionParticle α) : Bool :=
  (p.type == "spoke" &&
    decide (distv env p.targetX p.targetY
      (w.x + env.cosF p.rotation * (w.radius * (8 / 10)))
      (w.y + env.sinF p.rotation * (w.radius * (8 / 10))) < 10))
  || (p.type == "outerDot" &&
    decide (distv env p.targetX p.targetY
      (w.x + env.cosF (env.atan2F (p.targetY - w.y) (p.targetX - w.x)) * (w.radius * (9 / 10)))
      (w.y + env.sinF (env.atan2F (p.targetY - w.y) (p.targetX - w.x)) * (w.radius * (9 / 10)))
      < 10))

/-- Start the return animation of one particle: `isReturning = true` and
the current position is snapshotted as the new animation origin. -/
def setReturning (p : DandelionParticle α) : DandelionParticle α :=
  { p with isReturning := true, originalX := p.x, originalY := p.y }

/-- Flag the particle if it matches the restored wheel, else leave it. -/
def returnAgainst (env : Env α) (w : Wheel α) (p : DandelionParticle α) :
    DandelionParticle α :=
  if matchCond env w p then setReturning p else p

/-- Restoration of one wheel: `w.isBlownAway = false; w.innerAlpha = 0`. -/
def restoreWheel (w : Wheel α) : Wheel α :=
  { w with isBlownAway := false, innerAlpha := 0 }

/-- Processing of one restored wheel reference inside `keyPressed`:
clear its dispersal flag, reset its fade, and flag its matching
particles. -/
def restoreStep (env : Env α) (acc : List (Wheel α) × List (DandelionParticle α))
    (i : ℕ) : List (Wheel α) × List (DandelionParticle α) :=
  match acc.1.get? i with
  | none => acc
  | some w =>
    (modifyAt acc.1 i restoreWheel,
     acc.2.map (returnAgainst env w))

/-- Whether some wheel of the batch matches the particle (the union of
the per-wheel `particlesToReturn` filters of `keyPressed`). -/
def matchedAny (env : Env α) (ws : List (Wheel α)) (batch : List ℕ)
    (p : DandelionParticle α) : Bool :=
  batch.any fun i =>
    match ws.get? i with
    | some w => matchCond env w p
    | none => false

/-- `keyPressed()`: on the spacebar (`keyCode = 32`), pop the most recent
history batch (if any) and process each of its wheels in order. -/
def keyPressedF (env : Env α) (keyCode : ℤ) (s : SysState α) : SysState α :=
  if keyCode = 32 then
    match s.history.getLast? with
    | none => s
    | some batch =>
      let r := batch.foldl (restoreStep env) (s.wheels, s.particles)
      { wheels := r.1, particles := r.2, history := s.history.dropLast }
  else s

/-- A state produced by `initializeArtwork`: no particles, no history,
and every wheel fresh from the constructor (placement and palette choice
are the layout collaborator's business). -/
def InitState (s : SysState α) : Prop :=
  s.particles = [] ∧ s.history = [] ∧
    ∀ w ∈ s.wheels, w.isBlownAway = false ∧ w.innerAlpha = 0 ∧
      w.targetInnerAlpha = 255 ∧ w.fadeSpeed = 5

/-- States reachable from an initial state through frames and input
events (a resize re-initializes, which is again an `InitState`). -/
inductive Reachable : SysState α → Prop
  | init (s : SysState α) : InitState s → Reachable s
  | tick (s : SysState α) (env : Env α) : Reachable s → Reachable (tick env s)
  | mouse (s : SysState α) (env : Env α) (mx my : α) :
      Reachable s → Reachable (mousePressedF env mx my s)
  | key (s : SysState α) (env : Env α) (kc : ℤ) :
      Reachable s → Reachable (keyPressedF env kc s)

/-- The global invariant maintained by every transition of the sketch:
wheel fades stay in range and are pinned at `0` while dispersed, live
particles keep `alpha ∈ (0, 255]` and the constructor's `returnSpeed`,
every wheel referenced from the history is currently dispersed, and the
history batches are pairwise disjoint. -/
structure Inv (s : SysState α) : Prop where
  wheelsOk : ∀ w ∈ s.wheels, 0 ≤ w.innerAlpha ∧ w.innerAlpha ≤ 255 ∧
    (w.isBlownAway = true → w.innerAlpha = 0) ∧
    w.targetInnerAlpha = 255 ∧ w.fadeSpeed = 5
  particlesOk : ∀ p ∈ s.particles,
    0 < p.alpha ∧ p.alpha ≤ 255 ∧ p.returnSpeed = 5 / 100
  histBlown : ∀ b ∈ s.history, ∀ i ∈ b,
    ∃ w, s.wheels.get? i = some w ∧ w.isBlownAway = true
  histDisj : s.history.Pairwise fun b1 b2 => ∀ i ∈ b1, i ∉ b2

/-! ### Spec-reading definitions

These two definitions render wording of the specification (not code of the
sketch); they are compared against the embedded source behaviour. -/

/-- Spec-reading definition (C4 wording): the topmost element whose
containment test succeeds at the point, regardless of its dispersal
state. -/
def topContaining (env : Env α) (mx my : α) (ws : List (Wheel α)) : Option ℕ :=
  (List.range ws.length).reverse.find? fun j =>
    match ws.get? j with
    | some w => w.contains env mx my
    | none => false

/-- Spec-reading definition (C6 wording "outward-biased velocity"): the
initial velocity has positive component along the outward direction from
the owning element's centre to the particle. -/
def velOutwardBiased (w : Wheel α) (p : DandelionParticle α) : Prop :=
  0 < (p.x - w.x) * p.velX + (p.y - w.y) * p.velY

/-! ### Concrete instances used by witnesses and counterexamples -/

/-- Witness environment over `ℚ`.  Every `sqrtF` argument arising in the
concrete witness states below is `0`, where the identity function agrees
with the genuine square root; `cosF`/`sinF`/`atan2F` values are
irrelevant to the statements they witness (which hold for every
environment). -/
def envQ : Env ℚ :=
  { cosF := fun _ => 0, sinF := fun _ => 0, sqrtF := fun q => q,
    atan2F := fun _ _ => 0, piV := 355 / 113, rnd := fun _ => ⟨0, 0, 0, 0, 0⟩ }

/-- A fresh wheel at the origin with radius 5. -/
def wA : Wheel ℚ := Wheel.create 0 0 5 ["r", "o", "i", "s", "c"] 0

/-- One fresh wheel, no particles, empty history. -/
def sW : SysState ℚ := ⟨[wA], [], []⟩

/-- An already-dispersed wheel at the origin (different base color). -/
def wBlown : Wheel ℚ :=
  { Wheel.create 0 0 5 ["b", "o", "i", "s", "c"] 0 with isBlownAway := true }

/-- Two overlapping wheels at the origin: the topmost (index 1) is
already dispersed, the lower one (index 0) is not. -/
def s4 : SysState ℚ := ⟨[wA, wBlown], [], []⟩

/-- The first spoke particle spawned from `wA` under `envQ`. -/
def pW : DandelionParticle ℚ := mkParticle envQ 0 0 0 "spoke" "s" (3 / 4) 0 0 0

/-- A dispersed copy of `wA`. -/
def wABlown : Wheel ℚ := { wA with isBlownAway := true }

/-- A drifting spoke particle whose return target sits on `wA`'s spoke
ring (as recomputed under `envQ`). -/
def pSpoke : DandelionParticle ℚ :=
  { x := 7, y := 9, type := "spoke", color := "s", size := 1, alpha := 200,
    originalX := 0, originalY := 0, targetX := 0, targetY := 0,
    velX := 0, velY := 0, rotation := 0, rotationSpeed := 0,
    windX := -(1 / 10), windY := 1 / 10, isReturning := false, returnSpeed := 1 / 20 }

/-- A state with one dispersed wheel, one matching live particle, and a
one-batch history: ready for restoration. -/
def s3 : SysState ℚ := ⟨[wABlown], [pSpoke], [[0]]⟩

/-- Like `s3` but with the particle already returning. -/
def s8 : SysState ℚ := ⟨[wABlown], [setReturning pSpoke], [[0]]⟩

/-! ### Basic lemmas about the per-object updates -/

theorem DandelionParticle.update_isReturning (p : DandelionParticle α) :
    p.update.isReturning = p.isReturning := by
  unfold DandelionParticle.update; split <;> rfl

theorem DandelionParticle.update_returnSpeed (p : DandelionParticle α) :
    p.update.returnSpeed = p.returnSpeed := by
  unfold DandelionParticle.update; split <;> rfl

theorem DandelionParticle.update_type (p : DandelionParticle α) :
    p.update.type = p.type := by
  unfold DandelionParticle.update; split <;> rfl

theorem DandelionParticle.update_target (p : DandelionParticle α) :
    p.update.targetX = p.targetX ∧ p.update.targetY = p.targetY := by
  unfold DandelionParticle.update; split <;> exact ⟨rfl, rfl⟩

theorem DandelionParticle.update_alpha_drift (p : DandelionParticle α)
    (h : p.isReturning = false) : p.update.alpha = p.alpha - 2 := by
  unfold DandelionParticle.update; rw [h]; rfl

theorem DandelionParticle.update_alpha_return (p : DandelionParticle α)
    (h : p.isReturning = true) :
    p.update.alpha = p.alpha + (0 - p.alpha) * (p.returnSpeed * 2) := by
  unfold DandelionParticle.update; rw [h]; rfl

theorem Wheel.updateAlpha_isBlownAway (w : Wheel α) :
    w.updateAlpha.isBlownAway = w.isBlownAway := by
  unfold Wheel.updateAlpha; split
  · next h => simp [h]
  · split <;> rfl

theorem Wheel.updateAlpha_consts (w : Wheel α) :
    w.updateAlpha.targetInnerAlpha = w.targetInnerAlpha ∧
      w.updateAlpha.fadeSpeed = w.fadeSpeed := by
  unfold Wheel.updateAlpha; split
  · exact ⟨rfl, rfl⟩
  · split <;> exact ⟨rfl, rfl⟩

theorem Wheel.updateAlpha_blown (w : Wheel α) (h : w.isBlownAway = true) :
    w.updateAlpha.innerAlpha = 0 := by
  unfold Wheel.updateAlpha; rw [h]; rfl

theorem Wheel.updateAlpha_active (w : Wheel α) (h : w.isBlownAway = false)
    (hle : w.innerAlpha ≤ w.targetInnerAlpha) (hf : 0 ≤ w.fadeSpeed) :
    w.updateAlpha.innerAlpha = min (w.innerAlpha + w.fadeSpeed) w.targetInnerAlpha := by
  unfold Wheel.updateAlpha; rw [h]
  simp only [Bool.false_eq_true, if_false]
  split
  · rfl
  · next hlt =>
    have heq : w.innerAlpha = w.targetInnerAlpha := le_antisymm hle (not_lt.mp hlt)
    rw [min_eq_right (by linarith), heq]

/-! ### Characterization of the dispersal controller -/

theorem selectedWheel_spec (env : Env α) (mx my : α) (ws : List (Wheel α))
    (w : Wheel α) (h : selectedWheel env mx my ws = some w) :
    w ∈ ws ∧ w.isBlownAway = false ∧ w.contains env mx my = true := by
  unfold selectedWheel at h
  rcases Option.bind_eq_some.mp h with ⟨j, hj, hget⟩
  have hpred := List.find?_some hj
  rw [hget] at hpred
  simp only [Bool.and_eq_true, Bool.not_eq_true'] at hpred
  exact ⟨List.get?_mem hget, hpred.2, hpred.1⟩

theorem mousePressedF_eq (env : Env α) (mx my : α) (s : SysState α) (w : Wheel α)
    (h : selectedWheel env mx my s.wheels = some w) :
    mousePressedF env mx my s =
      { wheels := s.wheels.map fun v =>
          if sameColorActive (w.colors.getD 0 "") v then
            { v with isBlownAway := true, innerAlpha := 0 }
          else v,
        particles := s.particles ++
          spawnAll env (s.wheels.filter (sameColorActive (w.colors.getD 0 ""))),
        history := s.history ++ [batchIdxs (w.colors.getD 0 "") s.wheels] } := by
  obtain ⟨hmem, hblown, _⟩ := selectedWheel_spec env mx my s.wheels w h
  have hself : sameColorActive (w.colors.getD 0 "") w = true := by
    simp [sameColorActive, hblown]
  have hpos : 0 < (s.wheels.filter (sameColorActive (w.colors.getD 0 ""))).length :=
    List.length_pos.mpr fun hnil => by
      have := List.mem_filter.mpr ⟨hmem, hself⟩
      rw [hnil] at this
      exact List.not_mem_nil w this
  unfold mousePressedF
  rw [h]
  simp only [hpos, if_pos]

theorem spawnFor_length (env : Env α) (off : ℕ) (w : Wheel α) :
    (spawnFor env off w).length = 64 := by
  simp [spawnFor]

theorem spawnAllAux_length (env : Env α) :
    ∀ (ws : List (Wheel α)) (off : ℕ), (spawnAllAux env off ws).length = ws.length * 64
  | [], _ => rfl
  | w :: rest, off => by
    simp [spawnAllAux, spawnFor_length, spawnAllAux_length env rest (off + 64)]
    ring

theorem spawnAll_length (env : Env α) (ws : List (Wheel α)) :
    (spawnAll env ws).length = ws.length * 64 :=
  spawnAllAux_length env ws 0

/-! ### Claim C2: dispersal pushes one batch and spawns N × 64 particles -/

/-- Claim C2: a dispersal trigger that selects a wheel pushes exactly one
batch onto the history, appends exactly `N × 64` particles
(`N = ` size of the affected set: the non-dispersed wheels sharing the
clicked wheel's base color, which always includes the trigger), and sets
every affected wheel's `isBlownAway = true` and `innerAlpha = 0`, leaving
all other wheels unchanged. -/
theorem c2_dispersal_batch (env : Env α) (mx my : α) (s : SysState α) (w : Wheel α)
    (h : selectedWheel env mx my s.wheels = some w) :
    0 < (s.wheels.filter (sameColorActive (w.colors.getD 0 ""))).length ∧
    (mousePressedF env mx my s).history
      = s.history ++ [batchIdxs (w.colors.getD 0 "") s.wheels] ∧
    (mousePressedF env mx my s).particles.length
      = s.particles.length
        + (s.wheels.filter (sameColorActive (w.colors.getD 0 ""))).length * 64 ∧
    (mousePressedF env mx my s).wheels = s.wheels.map fun v =>
      if sameColorActive (w.colors.getD 0 "") v then
        { v with isBlownAway := true, innerAlpha := 0 }
      else v := by
  obtain ⟨hmem, hblown, _⟩ := selectedWheel_spec env mx my s.wheels w h
  have hself : sameColorActive (w.colors.getD 0 "") w = true := by
    simp [sameColorActive, hblown]
  have hpos : 0 < (s.wheels.filter (sameColorActive (w.colors.getD 0 ""))).length :=
    List.length_pos.mpr fun hnil => by
      have := List.mem_filter.mpr ⟨hmem, hself⟩
      rw [hnil] at this
      exact List.not_mem_nil w this
  rw [mousePressedF_eq env mx my s w h]
  exact ⟨hpos, rfl, by simp [spawnAll_length], rfl⟩

/-- Witness for C2 at a concrete one-wheel state. -/
theorem c2_dispersal_batch_witness :
    selectedWheel envQ 0 0 sW.wheels = some wA ∧
    (mousePressedF envQ 0 0 sW).history = [[0]] ∧
    (mousePressedF envQ 0 0 sW).particles.length = 64 := by
  have h : selectedWheel envQ 0 0 sW.wheels = some wA := by
    simp [selectedWheel, hitIndex, sW, List.range_succ, Wheel.contains, distv, envQ, wA,
      Wheel.create]
  have hc := c2_dispersal_batch envQ 0 0 sW wA h
  refine ⟨h, ?_, ?_⟩
  · rw [hc.2.1]
    simp [sW, batchIdxs, wA, Wheel.create, List.range_succ, sameColorActive]
  · rw [hc.2.2.1]
    simp [sW, wA, Wheel.create, List.range_succ, sameColorActive]

/-! ### Claim C4: no-op conditions of the dispersal trigger -/

/-- Claim C4 (amended): if every wheel containing the point is already
dispersed (in particular if no wheel contains it), the dispersal trigger
changes nothing.  The claim's stronger reading — that it already suffices
for the *topmost* containing wheel to be dispersed — is false, see the
counterexample. -/
theorem c4_noop_amended (env : Env α) (mx my : α) (s : SysState α)
    (h : ∀ w ∈ s.wheels, w.contains env mx my = true → w.isBlownAway = true) :
    mousePressedF env mx my s = s := by
  have hnone : hitIndex env mx my s.wheels = none := by
    unfold hitIndex
    apply List.find?_eq_none.mpr
    intro j _
    cases hget : s.wheels.get? j with
    | none => simp
    | some w =>
      simp only [hget, Bool.and_eq_true, Bool.not_eq_true', not_and]
      intro hc
      simp [h w (List.get?_mem hget) hc]
  unfold mousePressedF selectedWheel
  rw [hnone]
  rfl

/-- Witness for the amended C4: a state whose only wheel contains the
point but is dispersed. -/
theorem c4_noop_amended_witness :
    mousePressedF envQ 0 0 (⟨[wBlown], [], []⟩ : SysState ℚ) = ⟨[wBlown], [], []⟩ :=
  c4_noop_amended envQ 0 0 _ (by
    intro w hw _
    simp only [List.mem_singleton] at hw
    simp [hw, wBlown, Wheel.create])

/-- Claim C4 (counterexample): at a point whose *topmost* containing wheel
is already dispersed, the trigger is *not* a no-op when a lower
non-dispersed wheel also contains the point: the lower wheel is dispersed
and the history grows. -/
theorem c4_cex :
    topContaining envQ 0 0 s4.wheels = some 1 ∧
    (s4.wheels.get? 1).map Wheel.isBlownAway = some true ∧
    (mousePressedF envQ 0 0 s4).history ≠ s4.history := by
  refine ⟨?_, ?_, ?_⟩
  · simp [topContaining, s4, List.range_succ, Wheel.contains, distv, envQ, wA, wBlown,
      Wheel.create]
  · simp [s4, wBlown, Wheel.create]
  · have h : selectedWheel envQ 0 0 s4.wheels = some wA := by
      simp [selectedWheel, hitIndex, s4, List.range_succ, Wheel.contains, distv, envQ, wA,
        wBlown, Wheel.create]
    rw [mousePressedF_eq envQ 0 0 s4 wA h]
    simp [s4]

/-! ### Claim C6: properties of freshly spawned particles -/

/-- Claim C6 (amended): every spawned particle has its origin equal to its
return target (a spoke-ring point at radius fraction `0.8` or an
outer-dot-ring point at fraction `0.9`), spoke particles carry their
spawn angle as initial rotation, the initial velocity is a random speed
in `[1, 3)` in a random *fixed-quadrant* direction (angle in
`[π + π/4, π + π/2)`, i.e. up-and-left on the canvas, *not*
outward-biased), and the wind components are random constants in
`(-0.2, -0.05] × [0.05, 0.2)`. -/
theorem c6_spawn_properties (env : Env α) (off : ℕ) (w : Wheel α)
    (hpi : 0 < env.piV)
    (hu1 : ∀ n, 0 ≤ (env.rnd n).u1 ∧ (env.rnd n).u1 < 1)
    (hu2 : ∀ n, 0 ≤ (env.rnd n).u2 ∧ (env.rnd n).u2 < 1)
    (hu4 : ∀ n, 0 ≤ (env.rnd n).u4 ∧ (env.rnd n).u4 < 1)
    (hu5 : ∀ n, 0 ≤ (env.rnd n).u5 ∧ (env.rnd n).u5 < 1) :
    ∀ p ∈ spawnFor env off w,
      (p.originalX = p.x ∧ p.originalY = p.y ∧ p.targetX = p.x ∧ p.targetY = p.y) ∧
      (p.type = "spoke" ∨ p.type = "outerDot") ∧
      (p.type = "spoke" → ∃ j : ℕ, j < 24 ∧
        p.rotation = mapv (j : α) 0 24 0 (2 * env.piV) ∧
        p.x = w.x + env.cosF p.rotation * (w.radius * (8 / 10)) ∧
        p.y = w.y + env.sinF p.rotation * (w.radius * (8 / 10))) ∧
      (p.type = "outerDot" → p.rotation = 0 ∧ ∃ j : ℕ, j < 40 ∧
        p.x = w.x + env.cosF (mapv (j : α) 0 40 0 (2 * env.piV)) * (w.radius * (9 / 10)) ∧
        p.y = w.y + env.sinF (mapv (j : α) 0 40 0 (2 * env.piV)) * (w.radius * (9 / 10))) ∧
      (∃ θ spd : α, env.piV + env.piV / 4 ≤ θ ∧ θ < env.piV + env.piV / 2 ∧
        1 ≤ spd ∧ spd < 3 ∧ p.velX = env.cosF θ * spd ∧ p.velY = env.sinF θ * spd) ∧
      (-(2 / 10) < p.windX ∧ p.windX ≤ -(5 / 100) ∧
        5 / 100 ≤ p.windY ∧ p.windY < 2 / 10) := by
  have hq : 0 < env.piV / 4 := by linarith
  intro p hp
  have velwind : ∀ n : ℕ,
      (∃ θ spd : α, env.piV + env.piV / 4 ≤ θ ∧ θ < env.piV + env.piV / 2 ∧
        1 ≤ spd ∧ spd < 3 ∧
        env.cosF (randIn (env.rnd n).u1 (env.piV + env.piV / 4) (env.piV + env.piV / 2))
            * randIn (env.rnd n).u2 1 3 = env.cosF θ * spd ∧
        env.sinF (randIn (env.rnd n).u1 (env.piV + env.piV / 4) (env.piV + env.piV / 2))
            * randIn (env.rnd n).u2 1 3 = env.sinF θ * spd) ∧
      (-(2 / 10) < randIn (env.rnd n).u4 (-(5 / 100)) (-(2 / 10)) ∧
        randIn (env.rnd n).u4 (-(5 / 100)) (-(2 / 10)) ≤ -(5 / 100) ∧
        (5 : α) / 100 ≤ randIn (env.rnd n).u5 (5 / 100) (2 / 10) ∧
        randIn (env.rnd n).u5 (5 / 100) (2 / 10) < 2 / 10) := by
    intro n
    obtain ⟨h10, h11⟩ := hu1 n
    obtain ⟨h20, h21⟩ := hu2 n
    obtain ⟨h40, h41⟩ := hu4 n
    obtain ⟨h50, h51⟩ := hu5 n
    constructor
    · refine ⟨_, _, ?_, ?_, ?_, ?_, rfl, rfl⟩ <;> unfold randIn
      · nlinarith
      · nlinarith
      · nlinarith
      · nlinarith
    · unfold randIn
      refine ⟨by nlinarith, by nlinarith, by nlinarith, by nlinarith⟩
  unfold spawnFor at hp
  rcases List.mem_append.mp hp with hsp | hdot
  · obtain ⟨j, hj, rfl⟩ := List.mem_map.mp hsp
    refine ⟨⟨rfl, rfl, rfl, rfl⟩, Or.inl rfl, ?_, ?_, (velwind (off + j)).1,
      (velwind (off + j)).2⟩
    · exact fun _ => ⟨j, List.mem_range.mp hj, rfl, rfl, rfl⟩
    · intro habs
      exact absurd habs (by simp [mkParticle])
  · obtain ⟨j, hj, rfl⟩ := List.mem_map.mp hdot
    refine ⟨⟨rfl, rfl, rfl, rfl⟩, Or.inr rfl, ?_, ?_, (velwind (off + 24 + j)).1,
      (velwind (off + 24 + j)).2⟩
    · intro habs
      exact absurd habs (by simp [mkParticle])
    · exact fun _ => ⟨rfl, j, List.mem_range.mp hj, rfl, rfl⟩

/-- Witness for the amended C6 at the first spoke particle of `wA`. -/
theorem c6_spawn_properties_witness :
    pW ∈ spawnFor envQ 0 wA ∧
    (pW.originalX = pW.x ∧ pW.originalY = pW.y ∧
      pW.targetX = pW.x ∧ pW.targetY = pW.y) ∧
    pW.windX ≤ -(5 / 100) ∧ 5 / 100 ≤ pW.windY := by
  have hm : pW ∈ spawnFor envQ 0 wA := by
    unfold spawnFor
    apply List.mem_append_left
    refine List.mem_map.mpr ⟨0, by simp, ?_⟩
    simp [pW, mkParticle, mapv, envQ, wA, Wheel.create]
    norm_num
  have h := c6_spawn_properties envQ 0 wA (by norm_num [envQ])
    (fun n => by simp [envQ]) (fun n => by simp [envQ])
    (fun n => by simp [envQ]) (fun n => by simp [envQ]) pW hm
  exact ⟨hm, h.1, h.2.2.2.2.2.2.1, h.2.2.2.2.2.2.2.1⟩

/-- Claim C6 (counterexample): under the genuine real-valued host
primitives, the particle spawned at spoke angle `0` of a wheel moves with
`velX = cos θ < 0` for `θ ∈ [π + π/4, π + π/2)`, while the outward
direction at its spawn point is `+x`: its velocity is not
outward-biased. -/
theorem c6_cex :
    ∃ p ∈ spawnFor
        (⟨Real.cos, Real.sin, Real.sqrt, fun _ _ => 0, Real.pi,
          fun _ => ⟨0, 0, 0, 0, 0⟩⟩ : Env ℝ) 0
        (Wheel.create 0 0 100 ["a", "b", "c", "d", "e"] 0),
      ¬ velOutwardBiased (Wheel.create (0 : ℝ) 0 100 ["a", "b", "c", "d", "e"] 0) p := by
  set env : Env ℝ := ⟨Real.cos, Real.sin, Real.sqrt, fun _ _ => 0, Real.pi,
    fun _ => ⟨0, 0, 0, 0, 0⟩⟩ with henv
  set w : Wheel ℝ := Wheel.create 0 0 100 ["a", "b", "c", "d", "e"] 0 with hw
  refine ⟨_, List.mem_append_left _ (List.mem_map.mpr ⟨0, by simp, rfl⟩), ?_⟩
  unfold velOutwardBiased mkParticle randIn mapv
  simp only [henv, hw, Wheel.create]
  push_cast
  simp only [zero_sub, sub_zero, zero_div, mul_zero, zero_mul, add_zero, neg_zero,
    Real.cos_zero, Real.sin_zero, one_mul, mul_one, zero_add]
  have hc : Real.cos (Real.pi + Real.pi / 4) = -Real.cos (Real.pi / 4) := by
    rw [Real.cos_add, Real.cos_pi, Real.sin_pi]
    ring
  have h4 : (0 : ℝ) < Real.cos (Real.pi / 4) := by
    rw [Real.cos_pi_div_four]
    positivity
  intro habs
  rw [hc] at habs
  nlinarith [habs]

/-! ### Lemmas about the restoration controller -/

theorem modifyAt_get? (f : β → β) :
    ∀ (l : List β) (n m : ℕ),
      (modifyAt l n f).get? m = if m = n then (l.get? n).map f else l.get? m
  | [], n, m => by simp [modifyAt]
  | b :: bs, 0, 0 => by simp [modifyAt]
  | b :: bs, 0, m + 1 => by simp [modifyAt]
  | b :: bs, n + 1, 0 => by simp [modifyAt]
  | b :: bs, n + 1, m + 1 => by
    simp only [modifyAt, List.get?_cons_succ, modifyAt_get? f bs n m, Nat.succ_eq_add_one]
    split
    · next h => simp [h]
    · next h => rw [if_neg (by omega)]

theorem restoreWheel_idem (w : Wheel α) : restoreWheel (restoreWheel w) = restoreWheel w :=
  rfl

theorem restoreStep_fst_get? (env : Env α)
    (acc : List (Wheel α) × List (DandelionParticle α)) (i j : ℕ) :
    (restoreStep env acc i).1.get? j
      = if j = i then (acc.1.get? i).map restoreWheel else acc.1.get? j := by
  unfold restoreStep
  cases hgi : acc.1.get? i with
  | none =>
    simp only [hgi, Option.map_none']
    split
    · next hj => rw [hj, hgi]
    · rfl
  | some w =>
    simp only [hgi]
    rw [modifyAt_get? restoreWheel acc.1 i j, hgi]

theorem foldl_restoreStep_fst_get? (env : Env α) (batch : List ℕ) :
    ∀ (acc : List (Wheel α) × List (DandelionParticle α)) (j : ℕ),
      (batch.foldl (restoreStep env) acc).1.get? j
        = if j ∈ batch then (acc.1.get? j).map restoreWheel else acc.1.get? j := by
  induction batch with
  | nil => intro acc j; simp
  | cons i rest ih =>
    intro acc j
    rw [List.foldl_cons, ih, restoreStep_fst_get?]
    by_cases hji : j = i
    · subst hji
      by_cases hjr : j ∈ rest
      · simp only [hjr, if_true, if_pos rfl, Option.map_map, List.mem_cons, true_or]
        cases acc.1.get? j <;> simp [restoreWheel_idem]
      · simp [hjr]
    · by_cases hjr : j ∈ rest <;> simp [hji, hjr]

theorem matchCond_setReturning (env : Env α) (w : Wheel α) (p : DandelionParticle α) :
    matchCond env w (setReturning p) = matchCond env w p := rfl

theorem matchCond_restoreWheel (env : Env α) (w : Wheel α) (p : DandelionParticle α) :
    matchCond env (restoreWheel w) p = matchCond env w p := rfl

theorem setReturning_idem (p : DandelionParticle α) :
    setReturning (setReturning p) = setReturning p := rfl

theorem matchedAny_modifyAt (env : Env α) (ws : List (Wheel α)) (batch : List ℕ)
    (p : DandelionParticle α) (i : ℕ) :
    matchedAny env (modifyAt ws i restoreWheel) batch p = matchedAny env ws batch p := by
  unfold matchedAny
  congr 1
  funext i0
  by_cases h : i0 = i
  · subst h
    rw [modifyAt_get? restoreWheel ws i0 i0, if_pos rfl]
    cases ws.get? i0 with
    | none => rfl
    | some w => exact matchCond_restoreWheel env w p
  · rw [modifyAt_get? restoreWheel ws i i0, if_neg h]

theorem matchedAny_setReturning (env : Env α) (ws : List (Wheel α)) (batch : List ℕ)
    (p : DandelionParticle α) :
    matchedAny env ws batch (setReturning p) = matchedAny env ws batch p := rfl

theorem foldl_restoreStep_snd (env : Env α) (batch : List ℕ) :
    ∀ (acc : List (Wheel α) × List (DandelionParticle α)),
      (batch.foldl (restoreStep env) acc).2
        = acc.2.map fun p =>
            if matchedAny env acc.1 batch p then setReturning p else p := by
  induction batch with
  | nil =>
    intro acc
    simp [matchedAny]
  | cons i rest ih =>
    intro acc
    rw [List.foldl_cons, ih]
    cases hgi : acc.1.get? i with
    | none =>
      show ((restoreStep env acc i).2.map _) = _
      unfold restoreStep
      rw [hgi]
      apply List.map_congr_left
      intro p _
      have : matchedAny env acc.1 (i :: rest) p = matchedAny env acc.1 rest p := by
        unfold matchedAny
        rw [List.any_cons, hgi]
        rfl
      rw [this]
    | some w =>
      show ((restoreStep env acc i).2.map _) = _
      unfold restoreStep
      rw [hgi]
      simp only [List.map_map]
      apply List.map_congr_left
      intro p _
      simp only [Function.comp_apply, matchedAny_modifyAt, returnAgainst]
      have hcons : matchedAny env acc.1 (i :: rest) p
          = (matchCond env w p || matchedAny env acc.1 rest p) := by
        unfold matchedAny
        rw [List.any_cons, hgi]
      rw [hcons]
      by_cases hmc : matchCond env w p = true
      · simp [hmc, matchedAny_setReturning, setReturning_idem]
      · simp [hmc]

theorem keyPressedF_space (env : Env α) (s : SysState α) (batch : List ℕ)
    (hb : s.history.getLast? = some batch) :
    keyPressedF env 32 s =
      { wheels := (batch.foldl (restoreStep env) (s.wheels, s.particles)).1,
        particles := s.particles.map fun p =>
          if matchedAny env s.wheels batch p then setReturning p else p,
        history := s.history.dropLast } := by
  unfold keyPressedF
  rw [if_pos rfl, hb, ← foldl_restoreStep_snd env batch (s.wheels, s.particles)]

theorem keyPressedF_empty (env : Env α) (s : SysState α) (h : s.history = []) :
    keyPressedF env 32 s = s := by
  unfold keyPressedF
  rw [if_pos rfl, h]
  rfl

/-! ### Claim C3: restoration pops exactly one batch -/

/-- Claim C3: a restoration trigger with empty history is a complete no-op;
with non-empty history exactly the most recent batch is popped, every
wheel of that batch ends with `isBlownAway = false` and `innerAlpha = 0`,
and no wheel outside the batch is changed. -/
theorem c3_restoration (env : Env α) (s : SysState α) :
    (s.history = [] → keyPressedF env 32 s = s) ∧
    (∀ w : Wheel α, (restoreWheel w).isBlownAway = false ∧
      (restoreWheel w).innerAlpha = 0) ∧
    ∀ batch, s.history.getLast? = some batch →
      (keyPressedF env 32 s).history = s.history.dropLast ∧
      s.history.length = (keyPressedF env 32 s).history.length + 1 ∧
      (∀ j ∈ batch, (keyPressedF env 32 s).wheels.get? j
          = (s.wheels.get? j).map restoreWheel) ∧
      (∀ j, j ∉ batch → (keyPressedF env 32 s).wheels.get? j = s.wheels.get? j) := by
  refine ⟨keyPressedF_empty env s, fun w => ⟨rfl, rfl⟩, fun batch hb => ?_⟩
  rw [keyPressedF_space env s batch hb]
  have hne : s.history ≠ [] := by
    intro h
    rw [h] at hb
    exact Option.noConfusion hb
  refine ⟨rfl, ?_, fun j hj => ?_, fun j hj => ?_⟩
  · simp only [List.length_dropLast]
    have : 0 < s.history.length := List.length_pos.mpr hne
    omega
  · show (batch.foldl (restoreStep env) (s.wheels, s.particles)).1.get? j = _
    rw [foldl_restoreStep_fst_get? env batch (s.wheels, s.particles) j, if_pos hj]
  · show (batch.foldl (restoreStep env) (s.wheels, s.particles)).1.get? j = _
    rw [foldl_restoreStep_fst_get? env batch (s.wheels, s.particles) j, if_neg hj]

/-- Witness for C3: restoring the one-batch state `s3` and the no-op on
the empty-history state `sW`. -/
theorem c3_restoration_witness :
    keyPressedF envQ 32 sW = sW ∧
    (keyPressedF envQ 32 s3).history = [] ∧
    (keyPressedF envQ 32 s3).wheels.get? 0 = some (restoreWheel wABlown) := by
  have h1 := (c3_restoration envQ sW).1 rfl
  have h3 := (c3_restoration envQ s3).2.2 [0] rfl
  refine ⟨h1, h3.1, ?_⟩
  rw [h3.2.2.1 0 (List.mem_singleton.mpr rfl)]
  rfl

/-! ### Claim C7: exactly the matching particles are flagged returning -/

/-- Claim C7: restoring a batch flags exactly those live particles matched
by some batch wheel's ring test (`matchCond`: target within distance 10
of the spoke ring at fraction `0.8` for `'spoke'` particles, resp. the
outer-dot ring at fraction `0.9` for `'outerDot'` particles, recomputed
as at dispersal), setting `isReturning = true` and snapshotting the
current position as the new animation origin; all other particles are
untouched. -/
theorem c7_return_matching (env : Env α) (s : SysState α) (batch : List ℕ)
    (hb : s.history.getLast? = some batch) :
    (keyPressedF env 32 s).particles
      = s.particles.map (fun p =>
          if matchedAny env s.wheels batch p then setReturning p else p) ∧
    (∀ p : DandelionParticle α, setReturning p
        = { p with isReturning := true, originalX := p.x, originalY := p.y }) ∧
    ∀ p : DandelionParticle α,
      matchedAny env s.wheels batch p = true ↔
        ∃ i ∈ batch, ∃ w, s.wheels.get? i = some w ∧ matchCond env w p = true := by
  refine ⟨?_, fun p => rfl, fun p => ?_⟩
  · rw [keyPressedF_space env s batch hb]
  · unfold matchedAny
    rw [List.any_eq_true]
    constructor
    · rintro ⟨i, hi, hpred⟩
      cases hget : s.wheels.get? i with
      | none => rw [hget] at hpred; exact absurd hpred (by simp)
      | some w => rw [hget] at hpred; exact ⟨i, hi, w, hget, hpred⟩
    · rintro ⟨i, hi, w, hget, hmc⟩
      exact ⟨i, hi, by rw [hget]; exact hmc⟩

/-- Witness for C7: the matching particle of `s3` is flagged. -/
theorem c7_return_matching_witness :
    (keyPressedF envQ 32 s3).particles = [setReturning pSpoke] := by
  have h := (c7_return_matching envQ s3 [0] rfl).1
  rw [h]
  have hmc : matchCond envQ wABlown pSpoke = true := by
    simp [matchCond, distv, envQ, wABlown, wA, Wheel.create, pSpoke]
  simp [s3, matchedAny, List.any_cons, hmc]

/-! ### Claim C8: `isReturning` is monotone over the particle lifecycle -/

/-- Claim C8: a particle starts with `isReturning = false`; `update` never
changes the flag; a dispersal leaves all pre-existing particles
untouched; every particle surviving a frame is the `update` of a live
particle (so its flag is inherited); and a restoration trigger only ever
turns the flag on, never off.  Hence a returning particle never re-enters
drifting while it stays in the live set. -/
theorem c8_returning_monotone :
    (∀ (env : Env α) (n : ℕ) (x y : α) (ty col : String) (size tx ty2 ang : α),
      (mkParticle env n x y ty col size tx ty2 ang).isReturning = false) ∧
    (∀ p : DandelionParticle α, p.update.isReturning = p.isReturning) ∧
    (∀ (env : Env α) (mx my : α) (s : SysState α) (k : ℕ), k < s.particles.length →
      (mousePressedF env mx my s).particles.get? k = s.particles.get? k) ∧
    (∀ (env : Env α) (s : SysState α) (p' : DandelionParticle α),
      p' ∈ (tick env s).particles → ∃ p ∈ s.particles, p' = p.update) ∧
    (∀ (env : Env α) (kc : ℤ) (s : SysState α) (k : ℕ) (p : DandelionParticle α),
      s.particles.get? k = some p → p.isReturning = true →
      ∃ p', (keyPressedF env kc s).particles.get? k = some p' ∧
        p'.isReturning = true) := by
  refine ⟨fun _ _ _ _ _ _ _ _ _ _ => rfl, DandelionParticle.update_isReturning,
    ?_, ?_, ?_⟩
  · intro env mx my s k hk
    cases h : selectedWheel env mx my s.wheels with
    | none => unfold mousePressedF; rw [h]
    | some w =>
      rw [mousePressedF_eq env mx my s w h]
      exact List.get?_append hk
  · intro env s p' hp'
    unfold tick at hp'
    obtain ⟨hmem, _⟩ := List.mem_filter.mp hp'
    obtain ⟨p, hp, rfl⟩ := List.mem_map.mp hmem
    exact ⟨p, hp, rfl⟩
  · intro env kc s k p hget hret
    by_cases hkc : kc = 32
    · subst hkc
      cases hb : s.history.getLast? with
      | none =>
        refine ⟨p, ?_, hret⟩
        unfold keyPressedF
        rw [if_pos rfl, hb]
        exact hget
      | some batch =>
        rw [keyPressedF_space env s batch hb]
        refine ⟨_, by rw [List.get?_map, hget]; rfl, ?_⟩
        by_cases hmc : matchedAny env s.wheels batch p = true
        · simp [hmc, setReturning]
        · simp [hmc, hret]
    · refine ⟨p, ?_, hret⟩
      unfold keyPressedF
      rw [if_neg hkc]
      exact hget

/-- Witness for C8 at concrete states. -/
theorem c8_returning_monotone_witness :
    (mkParticle envQ 0 0 0 "spoke" "s" 1 0 0 0).isReturning = false ∧
    (mousePressedF envQ 0 0 s3).particles.get? 0 = some pSpoke ∧
    (∃ p ∈ s3.particles, pSpoke.update = p.update) ∧
    (∃ p', (keyPressedF envQ 32 s8).particles.get? 0 = some p' ∧
      p'.isReturning = true) := by
  have h := @c8_returning_monotone ℚ _
  refine ⟨h.1 envQ 0 0 0 "spoke" "s" 1 0 0 0, ?_, ?_, ?_⟩
  · have hk := h.2.2.1 envQ 0 0 s3 0 (by simp [s3])
    rw [hk]
    simp [s3]
  · refine h.2.2.2.1 envQ s3 pSpoke.update ?_
    have halpha : pSpoke.update.alpha = 198 := by
      rw [DandelionParticle.update_alpha_drift pSpoke rfl]
      norm_num [pSpoke]
    have hretp : pSpoke.update.isReturning = false :=
      DandelionParticle.update_isReturning pSpoke
    unfold tick
    apply List.mem_filter.mpr
    refine ⟨by simp [s3], ?_⟩
    simp [removeDrift, removeReturn, halpha, hretp]
  · exact h.2.2.2.2 envQ 32 s8 0 (setReturning pSpoke) (by simp [s8]) rfl

/-! ### Claim C9: a returning particle keeps positive alpha forever -/

/-- Claim C9: in exact arithmetic a return-mode update multiplies `alpha`
by `1 - 2 * returnSpeed = 0.9`; a particle that is returning with
strictly positive alpha stays returning with strictly positive alpha
after every further update, so neither removal predicate of the frame
driver is ever satisfied: it is never reaped. -/
theorem c9_returning_never_reaped (p : DandelionParticle α)
    (hret : p.isReturning = true) (hs : p.returnSpeed = 5 / 100)
    (ha : 0 < p.alpha) :
    (1 - 2 * p.returnSpeed : α) = 9 / 10 ∧
    ∀ n : ℕ,
      (DandelionParticle.update^[n] p).isReturning = true ∧
      0 < (DandelionParticle.update^[n] p).alpha ∧
      (DandelionParticle.update^[n] p).update.alpha
        = (1 - 2 * p.returnSpeed) * (DandelionParticle.update^[n] p).alpha ∧
      removeDrift (DandelionParticle.update^[n] p) = false ∧
      ∀ env : Env α, removeReturn env (DandelionParticle.update^[n] p) = false := by
  have hfactor : (1 - 2 * p.returnSpeed : α) = 9 / 10 := by rw [hs]; norm_num
  have main : ∀ n : ℕ,
      (DandelionParticle.update^[n] p).isReturning = true ∧
      (DandelionParticle.update^[n] p).returnSpeed = p.returnSpeed ∧
      0 < (DandelionParticle.update^[n] p).alpha := by
    intro n
    induction n with
    | zero => exact ⟨hret, rfl, ha⟩
    | succ m ih =>
      obtain ⟨ihret, ihspeed, ihalpha⟩ := ih
      rw [Function.iterate_succ_apply']
      refine ⟨?_, ?_, ?_⟩
      · rw [DandelionParticle.update_isReturning, ihret]
      · rw [DandelionParticle.update_returnSpeed, ihspeed]
      · rw [DandelionParticle.update_alpha_return _ ihret, ihspeed, hs]
        nlinarith
  refine ⟨hfactor, fun n => ?_⟩
  obtain ⟨hr, hsp, hal⟩ := main n
  refine ⟨hr, hal, ?_, ?_, fun env => ?_⟩
  · rw [DandelionParticle.update_alpha_return _ hr, hsp]
    ring
  · simp [removeDrift, hr]
  · simp [removeReturn, not_le.mpr hal]

/-- Witness for C9 at one concrete returning particle and `n = 1`. -/
theorem c9_returning_never_reaped_witness :
    (DandelionParticle.update^[1] (setReturning pSpoke)).isReturning = true ∧
    0 < (DandelionParticle.update^[1] (setReturning pSpoke)).alpha ∧
    removeReturn envQ (DandelionParticle.update^[1] (setReturning pSpoke)) = false := by
  have h := c9_returning_never_reaped (setReturning pSpoke) rfl
    (by norm_num [pSpoke, setReturning]) (by norm_num [pSpoke, setReturning])
  obtain ⟨-, h1⟩ := h
  exact ⟨(h1 1).1, (h1 1).2.1, (h1 1).2.2.2.2 envQ⟩

/-! ### Preservation of the global invariant -/

theorem inv_init (s : SysState α) (h : InitState s) : Inv s := by
  obtain ⟨hp, hh, hw⟩ := h
  refine ⟨fun w hwm => ?_, ?_, ?_, ?_⟩
  · obtain ⟨h1, h2, h3, h4⟩ := hw w hwm
    refine ⟨by rw [h2], by rw [h2]; norm_num,
      (fun hb => by rw [h1] at hb; exact Bool.noConfusion hb), h3, h4⟩
  · rw [hp]; intro p hp; cases hp
  · rw [hh]; intro b hb; cases hb
  · rw [hh]; exact List.Pairwise.nil

theorem inv_tick (env : Env α) (s : SysState α) (h : Inv s) : Inv (tick env s) := by
  refine ⟨?_, ?_, ?_, h.histDisj⟩
  · intro w' hw'
    obtain ⟨w, hw, rfl⟩ := List.mem_map.mp hw'
    obtain ⟨h0, h255, hb0, ht, hf⟩ := h.wheelsOk w hw
    obtain ⟨hct, hcf⟩ := Wheel.updateAlpha_consts w
    cases hblown : w.isBlownAway with
    | true =>
      rw [Wheel.updateAlpha_blown w hblown]
      exact ⟨le_refl 0, by norm_num, fun _ => rfl, by rw [hct, ht], by rw [hcf, hf]⟩
    | false =>
      have hact := Wheel.updateAlpha_active w hblown (by rw [ht]; exact h255)
        (by rw [hf]; norm_num)
      rw [hact, ht]
      refine ⟨le_min (by linarith [hf.ge.trans_eq rfl]) (by norm_num), min_le_right _ _,
        fun hb => ?_, by rw [hct, ht], by rw [hcf, hf]⟩
      · rw [Wheel.updateAlpha_isBlownAway] at hb
        rw [hblown] at hb
        cases hb
  · intro p' hp'
    obtain ⟨hmem, hkeep⟩ := List.mem_filter.mp hp'
    obtain ⟨p, hp, rfl⟩ := List.mem_map.mp hmem
    obtain ⟨hpa, hpa255, hps⟩ := h.particlesOk p hp
    simp only [Bool.and_eq_true, Bool.not_eq_true'] at hkeep
    cases hret : p.isReturning with
    | true =>
      rw [DandelionParticle.update_alpha_return p hret, hps,
        DandelionParticle.update_returnSpeed, hps]
      refine ⟨by nlinarith, by nlinarith, rfl⟩
    | false =>
      have hdalpha := DandelionParticle.update_alpha_drift p hret
      have hdret : p.update.isReturning = false := by
        rw [DandelionParticle.update_isReturning]; exact hret
      have hdrift := hkeep.1
      unfold removeDrift at hdrift
      rw [hdret] at hdrift
      simp only [Bool.not_false, Bool.and_true, decide_eq_false_iff_not, not_le] at hdrift
      exact ⟨hdrift, by rw [hdalpha]; linarith,
        by rw [DandelionParticle.update_returnSpeed, hps]⟩
  · intro b hb i hi
    obtain ⟨w, hget, hblown⟩ := h.histBlown b hb i hi
    refine ⟨w.updateAlpha, ?_, by rw [Wheel.updateAlpha_isBlownAway]; exact hblown⟩
    show (s.wheels.map Wheel.updateAlpha).get? i = some w.updateAlpha
    rw [List.get?_map, hget]
    rfl

theorem spawnFor_fresh (env : Env α) (off : ℕ) (w : Wheel α) :
    ∀ p ∈ spawnFor env off w, p.alpha = 255 ∧ p.returnSpeed = 5 / 100 := by
  intro p hp
  unfold spawnFor at hp
  rcases List.mem_append.mp hp with hm | hm <;>
    · obtain ⟨j, _, rfl⟩ := List.mem_map.mp hm
      exact ⟨rfl, rfl⟩

theorem spawnAllAux_fresh (env : Env α) :
    ∀ (ws : List (Wheel α)) (off : ℕ),
      ∀ p ∈ spawnAllAux env off ws, p.alpha = 255 ∧ p.returnSpeed = 5 / 100
  | [], _, p, hp => by cases hp
  | w :: rest, off, p, hp => by
    rcases List.mem_append.mp hp with hm | hm
    · exact spawnFor_fresh env off w p hm
    · exact spawnAllAux_fresh env rest (off + 64) p hm

theorem batchIdxs_mem (cc : String) (ws : List (Wheel α)) (i : ℕ) :
    i ∈ batchIdxs cc ws ↔ ∃ v, ws.get? i = some v ∧ sameColorActive cc v = true := by
  unfold batchIdxs
  rw [List.mem_filter, List.mem_range]
  constructor
  · rintro ⟨_, hpred⟩
    cases hget : ws.get? i with
    | none => rw [hget] at hpred; cases hpred
    | some v => rw [hget] at hpred; exact ⟨v, rfl, hpred⟩
  · rintro ⟨v, hget, hpred⟩
    exact ⟨(List.get?_eq_some.mp hget).1, by rw [hget]; exact hpred⟩

theorem inv_mouse (env : Env α) (mx my : α) (s : SysState α) (h : Inv s) :
    Inv (mousePressedF env mx my s) := by
  cases hsel : selectedWheel env mx my s.wheels with
  | none => unfold mousePressedF; rw [hsel]; exact h
  | some w =>
    rw [mousePressedF_eq env mx my s w hsel]
    refine ⟨?_, ?_, ?_, ?_⟩
    · intro v' hv'
      obtain ⟨v, hv, rfl⟩ := List.mem_map.mp hv'
      obtain ⟨h0, h255, hb0, ht, hf⟩ := h.wheelsOk v hv
      by_cases hsc : sameColorActive (w.colors.getD 0 "") v = true
      · rw [if_pos hsc]
        exact ⟨le_refl 0, by norm_num, fun _ => rfl, ht, hf⟩
      · rw [if_neg hsc]
        exact ⟨h0, h255, hb0, ht, hf⟩
    · intro p hp
      rcases List.mem_append.mp hp with hm | hm
      · exact h.particlesOk p hm
      · obtain ⟨ha, hr⟩ := spawnAllAux_fresh env _ 0 p hm
        rw [ha, hr]
        norm_num
    · intro b hb i hi
      rcases List.mem_append.mp hb with hm | hm
      · obtain ⟨v, hget, hblown⟩ := h.histBlown b hm i hi
        refine ⟨v, ?_, hblown⟩
        have hsc : sameColorActive (w.colors.getD 0 "") v ≠ true := by
          unfold sameColorActive
          rw [hblown]
          simp
        show (s.wheels.map _).get? i = some v
        rw [List.get?_map, hget, Option.map_some', if_neg hsc]
      · rw [List.mem_singleton.mp hm] at hi
        obtain ⟨v, hget, hpred⟩ := (batchIdxs_mem _ s.wheels i).mp hi
        refine ⟨{ v with isBlownAway := true, innerAlpha := 0 }, ?_, rfl⟩
        show (s.wheels.map _).get? i = _
        rw [List.get?_map, hget, Option.map_some', if_pos hpred]
    · rw [List.pairwise_append]
      refine ⟨h.histDisj, List.pairwise_singleton _ _, ?_⟩
      intro b hb b' hb' i hib hib'
      rw [List.mem_singleton.mp hb'] at hib'
      obtain ⟨v, hget, hblown⟩ := h.histBlown b hb i hib
      obtain ⟨v', hget', hpred'⟩ := (batchIdxs_mem _ s.wheels i).mp hib'
      rw [hget] at hget'
      cases Option.some.inj hget'
      unfold sameColorActive at hpred'
      rw [hblown] at hpred'
      simp at hpred'

theorem inv_key (env : Env α) (kc : ℤ) (s : SysState α) (h : Inv s) :
    Inv (keyPressedF env kc s) := by
  by_cases hkc : kc = 32
  · subst hkc
    cases hb : s.history.getLast? with
    | none =>
      unfold keyPressedF
      rw [if_pos rfl, hb]
      exact h
    | some batch =>
      have hdecomp : s.history.dropLast ++ [batch] = s.history :=
        List.dropLast_append_getLast? batch hb
      have hdisj : ∀ b ∈ s.history.dropLast, ∀ i ∈ b, i ∉ batch := by
        have := h.histDisj
        rw [← hdecomp, List.pairwise_append] at this
        intro b hbm i hib
        exact this.2.2 b hbm batch (List.mem_singleton.mpr rfl) i hib
      rw [keyPressedF_space env s batch hb]
      have hwget : ∀ j : ℕ,
          (batch.foldl (restoreStep env) (s.wheels, s.particles)).1.get? j
            = if j ∈ batch then (s.wheels.get? j).map restoreWheel
              else s.wheels.get? j :=
        foldl_restoreStep_fst_get? env batch (s.wheels, s.particles)
      refine ⟨?_, ?_, ?_, ?_⟩
      · intro w' hw'
        obtain ⟨j, hj⟩ := List.mem_iff_get?.mp hw'
        rw [hwget j] at hj
        by_cases hjb : j ∈ batch
        · rw [if_pos hjb] at hj
          cases hget : s.wheels.get? j with
          | none => rw [hget] at hj; cases hj
          | some v =>
            rw [hget] at hj
            cases Option.some.inj hj
            obtain ⟨h0, h255, hb0, ht, hf⟩ := h.wheelsOk v (List.get?_mem hget)
            refine ⟨le_refl 0, ?_, (fun hc => Bool.noConfusion hc), ht, hf⟩
            show (0 : α) ≤ 255
            norm_num
        · rw [if_neg hjb] at hj
          exact h.wheelsOk w' (List.get?_mem hj)
      · intro p' hp'
        obtain ⟨p, hp, rfl⟩ := List.mem_map.mp hp'
        obtain ⟨ha, h255, hr⟩ := h.particlesOk p hp
        by_cases hmc : matchedAny env s.wheels batch p = true
        · rw [if_pos hmc]
          exact ⟨ha, h255, hr⟩
        · rw [if_neg hmc]
          exact ⟨ha, h255, hr⟩
      · intro b hbm i hib
        have hbmem : b ∈ s.history := by
          rw [← hdecomp]
          exact List.mem_append_left _ hbm
        obtain ⟨v, hget, hblown⟩ := h.histBlown b hbmem i hib
        refine ⟨v, ?_, hblown⟩
        show (batch.foldl (restoreStep env) (s.wheels, s.particles)).1.get? i = some v
        rw [hwget i, if_neg (hdisj b hbm i hib)]
        exact hget
      · have := h.histDisj
        rw [← hdecomp, List.pairwise_append] at this
        exact this.1
  · unfold keyPressedF
    rw [if_neg hkc]
    exact h

theorem inv_reachable (s : SysState α) (hs : Reachable s) : Inv s := by
  induction hs with
  | init s hi => exact inv_init s hi
  | tick s env _ ih => exact inv_tick env s ih
  | mouse s env mx my _ ih => exact inv_mouse env mx my s ih
  | key s env kc _ ih => exact inv_key env kc s ih

theorem sW_initState : InitState sW := by
  refine ⟨rfl, rfl, ?_⟩
  intro w hw
  rw [sW, List.mem_singleton] at hw
  subst hw
  exact ⟨rfl, rfl, rfl, rfl⟩

/-! ### Claim C1: the element fade invariant -/

/-- Claim C1: at every tick boundary of every reachable state, every
wheel's `innerAlpha` lies in `[0, 255]` and is exactly `0` whenever the
wheel is blown away; while not blown away, an `updateAlpha` step raises
it by the fixed `fadeSpeed = 5` toward `255`, capped at `255`, and never
decreases it; while blown away, `updateAlpha` keeps it pinned at `0`. -/
theorem c1_innerFade_invariant (s : SysState α) (hs : Reachable s) :
    ∀ w ∈ s.wheels,
      (0 ≤ w.innerAlpha ∧ w.innerAlpha ≤ 255) ∧
      (w.isBlownAway = true → w.innerAlpha = 0) ∧
      (w.isBlownAway = true → w.updateAlpha.innerAlpha = 0) ∧
      (w.isBlownAway = false →
        w.fadeSpeed = 5 ∧
        w.updateAlpha.innerAlpha = min (w.innerAlpha + w.fadeSpeed) 255 ∧
        w.innerAlpha ≤ w.updateAlpha.innerAlpha ∧
        w.updateAlpha.innerAlpha ≤ 255) := by
  intro w hw
  obtain ⟨h0, h255, hb0, ht, hf⟩ := (inv_reachable s hs).wheelsOk w hw
  refine ⟨⟨h0, h255⟩, hb0, Wheel.updateAlpha_blown w, fun hnb => ?_⟩
  have hact := Wheel.updateAlpha_active w hnb (by rw [ht]; exact h255)
    (by rw [hf]; norm_num)
  rw [hact, ht]
  exact ⟨hf, rfl, le_min (by rw [hf]; linarith) h255, min_le_right _ _⟩

/-- Witness for C1 at the initial one-wheel state. -/
theorem c1_innerFade_invariant_witness :
    (0 ≤ wA.innerAlpha ∧ wA.innerAlpha ≤ 255) ∧
    wA.updateAlpha.innerAlpha = min (wA.innerAlpha + wA.fadeSpeed) 255 ∧
    wA.innerAlpha ≤ wA.updateAlpha.innerAlpha := by
  have h := c1_innerFade_invariant sW (Reachable.init sW sW_initState) wA
    (by rw [sW]; exact List.mem_singleton.mpr rfl)
  obtain ⟨hb, -, -, hact⟩ := h
  obtain ⟨-, heq, hmono, -⟩ := hact rfl
  exact ⟨hb, heq, hmono⟩

/-! ### Claim C10: history batches point at dispersed wheels, disjointly -/

/-- Claim C10: in every reachable state, every wheel referenced by any
batch on the undo history is currently dispersed, and the batches are
pairwise disjoint. -/
theorem c10_history_blown_disjoint (s : SysState α) (hs : Reachable s) :
    (∀ b ∈ s.history, ∀ i ∈ b,
      ∃ w, s.wheels.get? i = some w ∧ w.isBlownAway = true) ∧
    s.history.Pairwise (fun b1 b2 => ∀ i ∈ b1, i ∉ b2) :=
  ⟨(inv_reachable s hs).histBlown, (inv_reachable s hs).histDisj⟩

/-- Witness for C10 at the state reached by one dispersal from `sW`. -/
theorem c10_history_blown_disjoint_witness :
    ∃ w, (mousePressedF envQ 0 0 sW).wheels.get? 0 = some w ∧
      w.isBlownAway = true := by
  have hr : Reachable (mousePressedF envQ 0 0 sW) :=
    Reachable.mouse sW envQ 0 0 (Reachable.init sW sW_initState)
  have h := (c10_history_blown_disjoint _ hr).1
  have hsel : selectedWheel envQ 0 0 sW.wheels = some wA := by
    simp [selectedWheel, hitIndex, sW, List.range_succ, Wheel.contains, distv, envQ, wA,
      Wheel.create]
  have hhist : (mousePressedF envQ 0 0 sW).history = [[0]] := by
    rw [mousePressedF_eq envQ 0 0 sW wA hsel]
    simp [sW, batchIdxs, wA, Wheel.create, List.range_succ, sameColorActive]
  exact h [0] (by rw [hhist]; exact List.mem_singleton.mpr rfl) 0
    (List.mem_singleton.mpr rfl)

/-! ### Claim C5: particle alpha bounds and monotonicity -/

theorem drift_alpha_iterate (p : DandelionParticle α) (h : p.isReturning = false) :
    ∀ n : ℕ, (DandelionParticle.update^[n] p).isReturning = false ∧
      (DandelionParticle.update^[n] p).alpha = p.alpha - 2 * n := by
  intro n
  induction n with
  | zero => exact ⟨h, by norm_num⟩
  | succ m ih =>
    obtain ⟨ihret, ihalpha⟩ := ih
    rw [Function.iterate_succ_apply']
    refine ⟨by rw [DandelionParticle.update_isReturning, ihret], ?_⟩
    rw [DandelionParticle.update_alpha_drift _ ihret, ihalpha]
    push_cast
    ring

/-- Claim C5 (counterexample): `alpha` is *not* clamped to `[0, 255]` after
every update: the freshly spawned drifting particle `pW` (alpha `255`)
reaches `alpha = -1 ∉ [0, 255]` after its 128th drift update (each
intermediate tick boundary has alpha `> 0`, so it is never reaped
before). -/
theorem c5_alpha_cex :
    pW ∈ spawnFor envQ 0 wA ∧
    pW.alpha = 255 ∧
    (DandelionParticle.update^[127] pW).alpha = 1 ∧
    (DandelionParticle.update^[128] pW).alpha = -1 ∧
    ¬ (0 ≤ (DandelionParticle.update^[128] pW).alpha) := by
  have hm : pW ∈ spawnFor envQ 0 wA := by
    unfold spawnFor
    apply List.mem_append_left
    refine List.mem_map.mpr ⟨0, by simp, ?_⟩
    simp [pW, mkParticle, mapv, envQ, wA, Wheel.create]
    norm_num
  have h127 := (drift_alpha_iterate pW rfl 127).2
  have h128 := (drift_alpha_iterate pW rfl 128).2
  have ha : pW.alpha = 255 := rfl
  rw [ha] at h127 h128
  refine ⟨hm, ha, ?_, ?_, ?_⟩
  · rw [h127]; norm_num
  · rw [h128]; norm_num
  · rw [h128]; norm_num

/-- Claim C5 (amended): at every tick boundary of a reachable state every
live particle has `alpha ∈ (0, 255]`; a drift-mode update decreases
`alpha` by exactly `2` (no clamping), and a return-mode update with the
constructor's `returnSpeed` does not increase a nonnegative `alpha`. -/
theorem c5_alpha_amended (s : SysState α) (hs : Reachable s) :
    (∀ p ∈ s.particles, 0 < p.alpha ∧ p.alpha ≤ 255) ∧
    (∀ p : DandelionParticle α, p.isReturning = false →
      p.update.alpha = p.alpha - 2 ∧ p.update.alpha < p.alpha) ∧
    (∀ p : DandelionParticle α, p.isReturning = true → 0 ≤ p.alpha →
      p.returnSpeed = 5 / 100 → p.update.alpha ≤ p.alpha) := by
  refine ⟨fun p hp => ?_, fun p hret => ?_, fun p hret ha hs100 => ?_⟩
  · obtain ⟨h1, h2, -⟩ := (inv_reachable s hs).particlesOk p hp
    exact ⟨h1, h2⟩
  · rw [DandelionParticle.update_alpha_drift p hret]
    exact ⟨rfl, by linarith⟩
  · rw [DandelionParticle.update_alpha_return p hret, hs100]
    nlinarith

/-- Witness for the amended C5 at the state `s3` (reachable facts are
used through the drift clause at the concrete particle `pSpoke`). -/
theorem c5_alpha_amended_witness :
    (0 < pSpoke.alpha ∧ pSpoke.alpha ≤ 255) ∧
    pSpoke.update.alpha = pSpoke.alpha - 2 ∧
    pSpoke.update.alpha < pSpoke.alpha := by
  have h := c5_alpha_amended sW (Reachable.init sW sW_initState)
  refine ⟨⟨by norm_num [pSpoke], by norm_num [pSpoke]⟩, h.2.1 pSpoke rfl⟩

end WheelsArt
